import Mathlib

/-
Shallow embedding of the StoneGate client runtime:
  * src/tools/toolbox_python/stonegate_toolbox_client.py
      (StoneGateToolboxClient._reader, StoneGateToolboxClient.call,
       RpcError.__str__, load_recording_jsonl, _run_cli)
  * src/sdk/python/stonegate_sdk/stonegate_api/__init__.py
      (poll_all_flat, wait_for_stable, estimate_leak_rate_per_s,
       apply_safe_state)

JSON values are modelled by the inductive `JVal`; Python floats are
modelled by exact rationals (ℚ); inbound websocket frames are modelled by
the outcome of `json.loads` (`none` = parse failure, `some j` = the parsed
value).  Stateful asynchronous code is modelled by explicit state passing:
the pending-request table of the client is an association list from the
request id to the state of its future, and the reader loop is a fold over
the list of inbound frames.
-/

set_option autoImplicit false

namespace StoneGate

/-- JSON values as produced by `json.loads`. -/
inductive JVal where
  | null
  | bool (b : Bool)
  | num (q : ℚ)
  | str (s : String)
  | arr (xs : List JVal)
  | obj (kvs : List (String × JVal))
  deriving Repr

/-- Python truthiness (`if not rid`, `meas or \x7b\x7d`, …): `None`, `False`,
`0`, the empty string, the empty list and the empty dict are falsy. -/
def JVal.truthy : JVal → Bool
  | .null => false
  | .bool b => b
  | .num q => decide (q ≠ 0)
  | .str s => decide (s ≠ "")
  | .arr xs => !xs.isEmpty
  | .obj kvs => !kvs.isEmpty

/-- `d.get(k)` on a Python dict modelled as an association list
(keys are unique in a dict produced by `json.loads`). -/
def getKey (kvs : List (String × JVal)) (k : String) : Option JVal :=
  kvs.lookup k

/-- The state of one `asyncio.Future` held in the pending table. -/
inductive FutState where
  | unresolved
  | resolved (msg : JVal)
  | cancelled
  deriving Repr

/-- The pending-request table `self._pending : Dict[str, asyncio.Future]`,
in insertion order. -/
abbrev Table := List (String × FutState)

/-- `self._pending.pop(rid, None)`: remove the entry with key `rid`
(if any) and return its future together with the remaining table. -/
def popKey : Table → String → Option (FutState × Table)
  | [], _ => none
  | (k, v) :: rest, rid =>
    if k = rid then some (v, rest)
    else
      match popKey rest rid with
      | none => none
      | some (f, t) => some (f, (k, v) :: t)

/-- One inbound websocket frame, given as the outcome of `json.loads`:
`none` means the frame failed to parse, `some j` the parsed JSON value. -/
abbrev Frame := Option JVal

/-- Outcome of processing one frame in `StoneGateToolboxClient._reader`
(lines 47-63): either the loop continues with an updated table (and
possibly one future resolved with the full envelope), or an uncaught
exception terminates the reader task (`msg.get` on a non-dict raises
`AttributeError`, which nothing catches). -/
inductive StepResult where
  | crashed
  | continues (tbl : Table) (res : Option (String × JVal))
  deriving Repr

/-- The body of the `async for raw in self._ws` loop in
`StoneGateToolboxClient._reader`:
`json.loads` failure → `continue`; `msg.get("type") != "rpc_result"` →
`continue`; falsy `id` → `continue`; `self._pending.pop(rid, None)`
missing or done future → `continue`; otherwise `fut.set_result(msg)`.
A parsed non-dict frame raises `AttributeError` at `msg.get("type")`. -/
def readerStep (tbl : Table) (fr : Frame) : StepResult :=
  match fr with
  | none => .continues tbl none
  | some j =>
    match j with
    | .obj kvs =>
      match getKey kvs "type" with
      | some (.str t) =>
        if t = "rpc_result" then
          match getKey kvs "id" with
          | some ridv =>
            if ridv.truthy then
              match ridv with
              | .str rid =>
                match popKey tbl rid with
                | some (fut, tbl2) =>
                  match fut with
                  | .unresolved => .continues tbl2 (some (rid, j))
                  | _ => .continues tbl2 none
                | none => .continues tbl none
              | _ => .continues tbl none
            else .continues tbl none
          | none => .continues tbl none
        else .continues tbl none
      | _ => .continues tbl none
    | _ => .crashed

/-- Run the reader loop over a list of inbound frames, collecting the
resolutions `(request id, full envelope)` in the order they are
dispatched.  A crash terminates the loop: the remaining frames are never
processed. -/
def runReader : Table → List Frame → Table × List (String × JVal)
  | tbl, [] => (tbl, [])
  | tbl, fr :: rest =>
    match readerStep tbl fr with
    | .crashed => (tbl, [])
    | .continues tbl2 none => runReader tbl2 rest
    | .continues tbl2 (some r) =>
      let out := runReader tbl2 rest
      (out.1, r :: out.2)

/-- `self._pending.pop(rid, None)` in the `finally` block of `call`
(line 86): drop the entry for `rid`, keep the rest. -/
def dropKey (tbl : Table) (rid : String) : Table :=
  match popKey tbl rid with
  | none => tbl
  | some (_, t) => t

/-- Outcome of `StoneGateToolboxClient.call` as seen by its caller. -/
inductive CallOutcome where
  | timedOut
  | rpcFailure (code : JVal) (message : JVal) (details : Option JVal)
  | success (result : JVal)
  deriving Repr

/-- Lines 88-95 of `call`: once the future is resolved with envelope
`resp`, return `resp.get("result")` when `resp.get("ok")` is truthy,
otherwise raise `RpcError` built from `resp.get("error")` (missing
pieces default to falsy/None).  The `str(... or ...)` coercions on the
code and message fields are kept as the underlying JSON values. -/
def finishCall (resp : JVal) : CallOutcome :=
  match resp with
  | .obj kvs =>
    match getKey kvs "ok" with
    | some okv =>
      if okv.truthy then
        .success ((getKey kvs "result").getD .null)
      else
        finishCallError kvs
    | none => finishCallError kvs
  | _ => .rpcFailure (.str "error") (.str "RPC failed") none
where
  /-- The `raise RpcError(...)` arm: `err = (resp or \x7b\x7d).get("error") or \x7b\x7d`. -/
  finishCallError (kvs : List (String × JVal)) : CallOutcome :=
    let err : List (String × JVal) :=
      match getKey kvs "error" with
      | some (.obj e) => if (JVal.obj e).truthy then e else []
      | _ => []
    let code := match getKey err "code" with
      | some c => if c.truthy then c else .str "error"
      | none => .str "error"
    let msg := match getKey err "message" with
      | some m => if m.truthy then m else .str "RPC failed"
      | none => .str "RPC failed"
    .rpcFailure code msg (getKey err "details")

/-- The request ids registered in the pending table. -/
def keysOf (tbl : Table) : List String :=
  tbl.map Prod.fst

/-- The timeout path of `call` (lines 83-87): `asyncio.wait_for` raises
`TimeoutError` and the `finally` block pops the entry; the caller
observes `timedOut`. -/
def timeoutCall (tbl : Table) (rid : String) : Table × CallOutcome :=
  (dropKey tbl rid, .timedOut)

/-- `fr` is a parsed `rpc_result` frame whose id field is the string
`i`: exactly the frames the reader can match against request `i`. -/
def isResponseFor (fr : Frame) (i : String) : Bool :=
  match fr with
  | some (.obj kvs) =>
    match getKey kvs "type", getKey kvs "id" with
    | some (.str t), some (.str j) => decide (t = "rpc_result") && decide (j = i)
    | _, _ => false
  | _ => false

/-- The first inbound frame carrying `rpc_result` and id `i`, i.e. the
envelope the correlator hands to the call that generated `i`. -/
def firstResponseFor (frames : List Frame) (i : String) : Option JVal :=
  match frames.find? (fun fr => isResponseFor fr i) with
  | some (some j) => some j
  | _ => none

/-- The table after one reader step (`none` when the step crashed). -/
def stepTable : StepResult → Option Table
  | .crashed => none
  | .continues t _ => some t

/-- The id of the request resolved by one reader step, if any. -/
def stepResolvedId : StepResult → Option String
  | .crashed => none
  | .continues _ r => r.map Prod.fst

/-- The correlation decision of one reader step as a function of the
`type` field, the `id` field and the pending table alone: which table
remains and which request id (if any) is resolved.  The method and the
payload of the frame play no part. -/
def readerAction (typv idv : Option JVal) (tbl : Table) : Option Table × Option String :=
  match typv with
  | some (.str t) =>
    if t = "rpc_result" then
      match idv with
      | some ridv =>
        if ridv.truthy then
          match ridv with
          | .str rid =>
            match popKey tbl rid with
            | some (fut, tbl2) =>
              (some tbl2, match fut with | .unresolved => some rid | _ => none)
            | none => (some tbl, none)
          | _ => (some tbl, none)
        else (some tbl, none)
      | none => (some tbl, none)
    else (some tbl, none)
  | _ => (some tbl, none)

/-- A two-entry pending table used as a concrete test fixture. -/
def exTable : Table := [("u1", .unresolved), ("u2", .unresolved)]

/-- A concrete response envelope for request `u1`. -/
def exEnvA : JVal :=
  .obj [("type", .str "rpc_result"), ("id", .str "u1"),
        ("ok", .bool true), ("result", .num 1)]

/-- A concrete response envelope for request `u2`. -/
def exEnvB : JVal :=
  .obj [("type", .str "rpc_result"), ("id", .str "u2"),
        ("ok", .bool true), ("result", .num 2)]

/-- The two responses interleaved out of request order. -/
def exFrames : List Frame := [some exEnvB, some exEnvA]

/- ---------------------------------------------------------------------
poll_all_flat (stonegate_api/__init__.py lines 57-72)
--------------------------------------------------------------------- -/

/-- Per-entry unwrap in `poll_all_flat`:
`v.get("value") if isinstance(v, dict) and "value" in v else v`. -/
def unwrapValue (v : JVal) : JVal :=
  match v with
  | .obj kvs =>
    match getKey kvs "value" with
    | some w => w
    | none => .obj kvs
  | _ => v

/-- `meas = u.get("measurement") or \x7b\x7d` (line 62): a falsy or missing
measurement field becomes the empty dict. -/
def measurementOf (u : List (String × JVal)) : JVal :=
  match getKey u "measurement" with
  | some m => if m.truthy then m else .obj []
  | none => .obj []

/-- Lines 63-69 of `poll_all_flat`: if the measurement object is a dict
with a dict under key `measurements`, flatten that inner dict (with the
per-entry unwrap); if it is any other dict, flatten its own top-level
entries; otherwise the flat mapping is empty. -/
def flattenMeasurement (meas : JVal) : List (String × JVal) :=
  match meas with
  | .obj kvs =>
    match getKey kvs "measurements" with
    | some (.obj inner) => inner.map (fun p => (p.1, unwrapValue p.2))
    | _ => kvs.map (fun p => (p.1, unwrapValue p.2))
  | _ => []

/-- `out[did] = flat` on a Python dict modelled as an association list:
an existing key keeps its position and gets the new value, a new key is
appended. -/
def upsert {α : Type} (d : List (String × α)) (k : String) (v : α) :
    List (String × α) :=
  if (d.lookup k).isSome then
    d.map (fun p => if p.1 = k then (p.1, v) else p)
  else d ++ [(k, v)]

/-- `poll_all_flat` over an already-received `updates` list: build the
snapshot mapping device id → flat metric mapping.  An update whose `id`
is not a string is skipped (`isinstance(did, str)` fails).  An update
that is not a dict makes `u.get` raise `AttributeError` (modelled as
`none`). -/
def poll_all_flat (updates : List JVal) : Option (List (String × List (String × JVal))) :=
  pollGo updates []
where
  /-- The `for u in r.get("updates", [])` loop with accumulator `out`. -/
  pollGo : List JVal → List (String × List (String × JVal)) →
      Option (List (String × List (String × JVal)))
  | [], out => some out
  | u :: rest, out =>
    match u with
    | .obj kvs =>
      let flat := flattenMeasurement (measurementOf kvs)
      match getKey kvs "id" with
      | some (.str did) => pollGo rest (upsert out did flat)
      | _ => pollGo rest out
    | _ => none

/- ---------------------------------------------------------------------
wait_for_stable (stonegate_api/__init__.py lines 179-208)
--------------------------------------------------------------------- -/

/-- The mutable state of the `wait_for_stable` loop: the parallel lists
`samples` and `ts` (same length by construction) and the counter `ok`. -/
structure StabState where
  samples : List ℚ
  ts : List ℚ
  ok : Nat
  deriving Repr, DecidableEq

/-- The eviction loop (lines 197-199):
`while ts and (now - ts[0]) > float(window_s): ts.pop(0); samples.pop(0)`.
The lists are traversed in lockstep; they have equal length whenever the
source reaches this loop. -/
def evictOld (window now : ℚ) : List ℚ → List ℚ → List ℚ × List ℚ
  | t :: tr, s :: sr =>
    if now - t > window then evictOld window now tr sr
    else (t :: tr, s :: sr)
  | ts, ss => (ts, ss)

/-- Python `max` over a nonempty list. -/
def listMax (l : List ℚ) : ℚ := l.foldl max (l.headD 0)

/-- Python `min` over a nonempty list. -/
def listMin (l : List ℚ) : ℚ := l.foldl min (l.headD 0)

/-- Lines 192-199 of the `wait_for_stable` loop body: append the poll
value when usable (`if v is not None`), then evict entries older than
the window; returns the remaining `(ts, samples)` pair. -/
def stabEvicted (window : ℚ) (st : StabState) (v : Option ℚ) (now : ℚ) :
    List ℚ × List ℚ :=
  evictOld window now
    (match v with | some _ => st.ts ++ [now] | none => st.ts)
    (match v with | some x => st.samples ++ [x] | none => st.samples)

/-- Lines 201-204: the counter after the judgment
`abs(max(samples) - min(samples)) <= float(tolerance)` — incremented on
a stable window, reset to 0 otherwise. -/
def stabOk (tolerance window : ℚ) (st : StabState) (v : Option ℚ) (now : ℚ) : Nat :=
  if |listMax (stabEvicted window st v now).2 - listMin (stabEvicted window st v now).2|
      ≤ tolerance
  then st.ok + 1 else 0

/-- One iteration of the `wait_for_stable` polling loop body
(lines 192-207), minus the sleep: append the poll value when usable,
evict samples older than the window, and when at least 2 samples remain
judge the window, incrementing or resetting `ok`; the second component
is `true` exactly when the function returns
(`ok >= int(consecutive)` right after the judgment). -/
def stabStep (tolerance window : ℚ) (consecutive : ℤ) (st : StabState)
    (v : Option ℚ) (now : ℚ) : StabState × Bool :=
  if (stabEvicted window st v now).2.length ≥ 2 then
    (⟨(stabEvicted window st v now).2, (stabEvicted window st v now).1,
      stabOk tolerance window st v now⟩,
     decide ((stabOk tolerance window st v now : ℤ) ≥ consecutive))
  else
    (⟨(stabEvicted window st v now).2, (stabEvicted window st v now).1, st.ok⟩, false)

/-- Outcome of a `wait_for_stable` run. -/
inductive StabResult where
  | success
  | timedOut
  deriving Repr, DecidableEq

/-- The `wait_for_stable` loop driven by a finite trace of polls.  Each
trace entry is `(tcheck, v, now)`: the clock at the `while` condition,
the poll outcome (`none` when `get_latest_number` yields no usable
value), and the clock right after the poll.  `none` means the trace was
exhausted with the loop still running. -/
def runStable (tolerance window : ℚ) (consecutive : ℤ) (timeout start : ℚ) :
    StabState → List (ℚ × Option ℚ × ℚ) → Option StabResult
  | _, [] => none
  | st, (tcheck, v, now) :: rest =>
    if tcheck - start < timeout then
      let step := stabStep tolerance window consecutive st v now
      if step.2 then some .success
      else runStable tolerance window consecutive timeout start step.1 rest
    else some .timedOut

/- ---------------------------------------------------------------------
estimate_leak_rate_per_s (stonegate_api/__init__.py lines 136-176)
--------------------------------------------------------------------- -/

/-- The sample filter of the estimator (lines 154-160): drop samples
whose `dp = P - P_atm` is zero or has a different sign from `dp0`. -/
def leakFilter (p_atm_kpa dp0 : ℚ) (samples : List (ℚ × ℚ)) : List (ℚ × ℚ) :=
  samples.filter (fun s =>
    let dp := s.2 - p_atm_kpa
    !(decide (dp = 0) || (decide (dp > 0) != decide (dp0 > 0))))

/-- The centered least-squares numerator `Σ (x-x̄)(y-ȳ)` (line 168). -/
def centeredNum (xs ys : List ℚ) : ℚ :=
  let xbar := xs.sum / (xs.length : ℚ)
  let ybar := ys.sum / (ys.length : ℚ)
  ((xs.zip ys).map (fun p => (p.1 - xbar) * (p.2 - ybar))).sum

/-- The centered least-squares denominator `Σ (x-x̄)²` (line 169). -/
def centeredDen (xs : List ℚ) : ℚ :=
  let xbar := xs.sum / (xs.length : ℚ)
  (xs.map (fun x => (x - xbar) ^ 2)).sum

/-- `estimate_leak_rate_per_s` with exact rational arithmetic.
`log` abstracts the floating-point `math.log`; on rationals every
intermediate value is finite, so `math.isfinite(k)` always holds and the
corresponding rejection is vacuous here. -/
def estimate_leak_rate_per_s (log : ℚ → ℚ) (samples : List (ℚ × ℚ))
    (p_atm_kpa : ℚ) : Option ℚ :=
  if samples.length < 3 then none
  else
    match samples with
    | [] => none
    | (t0, p0) :: _ =>
      let dp0 := p0 - p_atm_kpa
      if dp0 = 0 then none
      else
        let usable := leakFilter p_atm_kpa dp0 samples
        let xs := usable.map (fun s => s.1 - t0)
        let ys := usable.map (fun s => log |s.2 - p_atm_kpa|)
        if xs.length < 3 then none
        else
          let den := centeredDen xs
          if den = 0 then none
          else
            let k := -(centeredNum xs ys / den)
            if k < 0 then none else some k

/- ---------------------------------------------------------------------
apply_safe_state (stonegate_api/__init__.py lines 211-227)
--------------------------------------------------------------------- -/

/-- One RPC attempt issued by `apply_safe_state`: `record_stop(rid)` or
`device_action(device_id, set-params)`. -/
inductive SafeCall where
  | stopRecording (rid : String)
  | setParams (deviceId : String) (params : List (String × JVal))
  deriving Repr

/-- `apply_safe_state`: stop every active recording id (discarding it
from the active set whatever the outcome), then apply every non-empty
safe target via a `set` action.  `env` gives each sub-call its outcome;
every failure is swallowed by `try/except: pass`, so the outcome never
influences control flow.  Returns the final active set and the ordered
trace of attempted sub-calls. -/
def apply_safe_state (env : SafeCall → Except Unit Unit)
    (activeRecordingIds : List String)
    (safeTargets : List (String × List (String × JVal))) :
    List String × List SafeCall :=
  let afterStops :=
    activeRecordingIds.foldl
      (fun (st : List String × List SafeCall) rid =>
        let c := SafeCall.stopRecording rid
        let _ := env c
        (st.1.erase rid, st.2 ++ [c]))
      (activeRecordingIds, [])
  let trace :=
    safeTargets.foldl
      (fun tr t =>
        if t.2.isEmpty then tr
        else
          let c := SafeCall.setParams t.1 t.2
          let _ := env c
          tr ++ [c])
      afterStops.2
  (afterStops.1, trace)

/- ---------------------------------------------------------------------
load_recording_jsonl (stonegate_toolbox_client.py lines 98-125)
--------------------------------------------------------------------- -/

/-- One line of a recording file after `line.strip()` and `json.loads`:
blank (skipped by `if not line`), unparseable (skipped by the
`try/except`), or a parsed JSON value. -/
inductive RecLine where
  | blank
  | malformed
  | val (j : JVal)

/-- The value returned by `load_recording_jsonl`. -/
structure Recording where
  header : Option JVal
  samples : List JVal
  footer : Option JVal

/-- The line loop of `load_recording_jsonl` with its three accumulators.
A parsed non-dict line makes `obj.get("type")` raise `AttributeError`
(uncaught, modelled as `none`). -/
def loadLines : Option JVal → List JVal → Option JVal → List RecLine →
    Option Recording
  | h, ss, f, [] => some ⟨h, ss, f⟩
  | h, ss, f, line :: rest =>
    match line with
    | .blank => loadLines h ss f rest
    | .malformed => loadLines h ss f rest
    | .val j =>
      match j with
      | .obj kvs =>
        match getKey kvs "type" with
        | some (.str t) =>
          if t = "stonegate_recording" then
            match h with
            | none => loadLines (some j) ss f rest
            | some h0 => loadLines (some h0) ss f rest
          else if t = "sample" then loadLines h (ss ++ [j]) f rest
          else if t = "stop" then loadLines h ss (some j) rest
          else loadLines h ss f rest
        | _ => loadLines h ss f rest
      | _ => none

/-- `load_recording_jsonl` on the parsed lines of a file. -/
def load_recording_jsonl (lines : List RecLine) : Option Recording :=
  loadLines none [] none lines

/- ---------------------------------------------------------------------
RpcError.__str__ and _run_cli (stonegate_toolbox_client.py
lines 11-21 and 135-188)
--------------------------------------------------------------------- -/

/-- The `RpcError` dataclass.  `details` is `None` or an opaque value;
`detailsRepr` holds `str(details)` when the value is present. -/
structure RpcError where
  code : String
  message : String
  detailsRepr : Option String
  deriving Repr, DecidableEq

/-- `RpcError.__str__`: `"code: message"`, with `" (details)"` appended
only when `self.details is not None`. -/
def RpcError.strRepr (e : RpcError) : String :=
  let base := e.code ++ ": " ++ e.message
  match e.detailsRepr with
  | some d => base ++ " (" ++ d ++ ")"
  | none => base

/-- Outcome of one `client.call` as observed inside `_run_cli`. -/
inductive CallRes where
  | ok (v : JVal)
  | rpcErr (e : RpcError)
  | timedOut
  deriving Repr

/-- The CLI subcommands of `_run_cli`. -/
inductive CliCmd where
  | devicesList
  | devicesPoll
  | deviceAction (deviceId : String) (action : JVal)
  | qecDecode (params : JVal)
  | recordStart (streams : JVal) (scriptName operator fileBase : String)
  | recordStop (recordingId : String)
  | recordLoad (lines : List RecLine)
  | unknownCmd (name : String)

/-- The `except RpcError` / success paths shared by every RPC
subcommand of `_run_cli`: success prints the JSON and returns 0; an
`RpcError` prints `ERROR: str(e)` and returns 2; a `TimeoutError` is not
caught and crashes the CLI (modelled as `none`). -/
def cliDispatch (res : CallRes) : Option (Int × Option String) :=
  match res with
  | .ok _ => some (0, none)
  | .rpcErr e => some (2, some ("ERROR: " ++ e.strRepr))
  | .timedOut => none

/-- `_run_cli`: dispatch one subcommand against `env` (the outcome of
each `client.call`, keyed by method and params) and return the exit code
together with the error line printed, `none` on an uncaught exception. -/
def runCli (env : String → JVal → CallRes) : CliCmd → Option (Int × Option String)
  | .devicesList => cliDispatch (env "devices.list" (.obj []))
  | .devicesPoll => cliDispatch (env "devices.poll" (.obj []))
  | .deviceAction deviceId action =>
    cliDispatch (env "device.action"
      (.obj [("device_id", .str deviceId), ("action", action)]))
  | .qecDecode params => cliDispatch (env "qec.decode" params)
  | .recordStart streams scriptName operator fileBase =>
    cliDispatch (env "record.start"
      (.obj [("streams", streams),
             ("script_name", .str scriptName),
             ("operator", .str operator),
             ("file_base", .str (if fileBase = "" then "recording" else fileBase))]))
  | .recordStop recordingId =>
    cliDispatch (env "record.stop" (.obj [("recording_id", .str recordingId)]))
  | .recordLoad lines =>
    match load_recording_jsonl lines with
    | some _ => some (0, none)
    | none => none
  | .unknownCmd name =>
    cliDispatch (.rpcErr ⟨"bad_request", "Unknown command: " ++ name, none⟩)

/- =====================================================================
Theorems
===================================================================== -/

/-- C4: `poll_all_flat` normalizes every per-device measurement object by
a single rule: with a nested dict under key `measurements`, that dict
supplies the flat mapping (each dict entry carrying a `value` key is
replaced by that value); otherwise the top-level keys are used with the
same unwrap.  In particular the `d1` update yields `d1 ↦ m ↦ 3` and the
`d2` update yields `d2 ↦ m ↦ 5`. -/
theorem spec_C4 :
    (∀ (kvs inner : List (String × JVal)),
      getKey kvs "measurements" = some (JVal.obj inner) →
      flattenMeasurement (.obj kvs) = inner.map (fun p => (p.1, unwrapValue p.2)))
    ∧ (∀ kvs : List (String × JVal),
      (∀ inner, getKey kvs "measurements" ≠ some (JVal.obj inner)) →
      flattenMeasurement (.obj kvs) = kvs.map (fun p => (p.1, unwrapValue p.2)))
    ∧ (∀ (w : List (String × JVal)) (v : JVal),
      getKey w "value" = some v → unwrapValue (.obj w) = v)
    ∧ poll_all_flat
        [JVal.obj [("id", .str "d1"),
          ("measurement", .obj [("measurements", .obj [("m", .obj [("value", .num 3)])])])]]
        = some [("d1", [("m", JVal.num 3)])]
    ∧ poll_all_flat [JVal.obj [("id", .str "d2"), ("measurement", .obj [("m", .num 5)])]]
        = some [("d2", [("m", JVal.num 5)])] := by
  refine ⟨?_, ?_, ?_, rfl, rfl⟩
  · intro kvs inner h
    simp only [flattenMeasurement, h]
  · intro kvs h
    rcases hm : getKey kvs "measurements" with _ | v
    · simp only [flattenMeasurement, hm]
    · cases v with
      | obj inner => exact absurd hm (h inner)
      | null => simp only [flattenMeasurement, hm]
      | bool b => simp only [flattenMeasurement, hm]
      | num q => simp only [flattenMeasurement, hm]
      | str s => simp only [flattenMeasurement, hm]
      | arr xs => simp only [flattenMeasurement, hm]
  · intro w v h
    simp only [unwrapValue, h]

/-- Witness for C4 at the two concrete update shapes of the claim. -/
theorem spec_C4_witness :
    flattenMeasurement (.obj [("measurements", .obj [("m", .obj [("value", .num 3)])])])
      = [("m", JVal.num 3)]
    ∧ flattenMeasurement (.obj [("m", .num 5)]) = [("m", JVal.num 5)] := by
  constructor
  · exact spec_C4.1 [("measurements", .obj [("m", .obj [("value", .num 3)])])]
      [("m", .obj [("value", .num 3)])] rfl
  · refine (spec_C4.2.1 [("m", .num 5)] ?_)
    intro inner h
    simp [getKey, List.lookup] at h

theorem measurementOf_none (kvs : List (String × JVal))
    (h : getKey kvs "measurement" = none) : measurementOf kvs = .obj [] := by
  unfold measurementOf
  rw [h]

theorem measurementOf_some (kvs : List (String × JVal)) (m : JVal)
    (h : getKey kvs "measurement" = some m) :
    measurementOf kvs = if m.truthy then m else .obj [] := by
  unfold measurementOf
  rw [h]

theorem pollGo_cons_obj (kvs : List (String × JVal)) (us : List JVal)
    (out : List (String × List (String × JVal))) :
    poll_all_flat.pollGo (.obj kvs :: us) out =
      (match getKey kvs "id" with
       | some (.str did) =>
         poll_all_flat.pollGo us (upsert out did (flattenMeasurement (measurementOf kvs)))
       | _ => poll_all_flat.pollGo us out) := rfl

theorem flattenMeasurement_not_obj (m : JVal) (h : ∀ mk, m ≠ JVal.obj mk) :
    flattenMeasurement m = [] := by
  cases m with
  | obj mk => exact absurd rfl (h mk)
  | null => rfl
  | bool b => rfl
  | num q => rfl
  | str s => rfl
  | arr xs => rfl

/-- C10: in `poll_all_flat`, an update whose `measurement` field is
missing, null, or not an object maps its device id to an empty metric
mapping (the device still appears in the snapshot); an update whose `id`
field is not a string is omitted from the snapshot entirely; neither
case raises an error. -/
theorem spec_C10 :
    (∀ kvs : List (String × JVal),
      (getKey kvs "measurement" = none ∨ getKey kvs "measurement" = some .null ∨
        (∃ m, getKey kvs "measurement" = some m ∧ ∀ mk, m ≠ JVal.obj mk)) →
      flattenMeasurement (measurementOf kvs) = [])
    ∧ (∀ (kvs : List (String × JVal)) (d : String),
      getKey kvs "id" = some (.str d) →
      poll_all_flat [.obj kvs] = some [(d, flattenMeasurement (measurementOf kvs))])
    ∧ (∀ kvs : List (String × JVal),
      (∀ d, getKey kvs "id" ≠ some (JVal.str d)) →
      ∀ us out, poll_all_flat.pollGo (.obj kvs :: us) out = poll_all_flat.pollGo us out) := by
  refine ⟨?_, ?_, ?_⟩
  · intro kvs h
    rcases h with h | h | ⟨m, hm, hno⟩
    · rw [measurementOf_none kvs h]
      rfl
    · rw [measurementOf_some kvs _ h]
      rfl
    · rw [measurementOf_some kvs m hm]
      by_cases ht : m.truthy = true
      · rw [if_pos ht]
        exact flattenMeasurement_not_obj m hno
      · rw [if_neg ht]
        rfl
  · intro kvs d h
    show poll_all_flat.pollGo [.obj kvs] [] = _
    rw [pollGo_cons_obj, h]
    rfl
  · intro kvs h us out
    rw [pollGo_cons_obj]
    rcases hid : getKey kvs "id" with _ | v
    · rfl
    · cases v with
      | str d => exact absurd hid (h d)
      | null => rfl
      | bool b => rfl
      | num q => rfl
      | arr xs => rfl
      | obj o => rfl

/-- Witness for C10: a device with a null measurement still appears with
an empty metric mapping, and an update with a numeric id is dropped. -/
theorem spec_C10_witness :
    flattenMeasurement (measurementOf [("id", .str "d4"), ("measurement", .null)]) = []
    ∧ poll_all_flat [.obj [("id", .str "d4"), ("measurement", .null)]]
        = some [("d4", [])]
    ∧ poll_all_flat.pollGo [.obj [("id", .num 9)]] [] = poll_all_flat.pollGo [] [] := by
  refine ⟨?_, ?_, ?_⟩
  · exact spec_C10.1 [("id", .str "d4"), ("measurement", .null)] (Or.inr (Or.inl rfl))
  · have h := (spec_C10.2.1 [("id", .str "d4"), ("measurement", .null)] "d4") rfl
    rw [h, spec_C10.1 [("id", .str "d4"), ("measurement", .null)] (Or.inr (Or.inl rfl))]
  · refine spec_C10.2.2 [("id", .num 9)] ?_ [] []
    intro d h
    simp [getKey] at h

theorem foldl_erase_self : ∀ l : List String,
    List.foldl (fun a r => a.erase r) l l = [] := by
  intro l
  induction l with
  | nil => rfl
  | cons x xs ih =>
    rw [List.foldl_cons, List.erase_cons_head]
    exact ih

theorem stops_foldl (env : SafeCall → Except Unit Unit) :
    ∀ (l s : List String) (tr : List SafeCall),
      l.foldl
        (fun (st : List String × List SafeCall) rid =>
          let c := SafeCall.stopRecording rid
          let _ := env c
          (st.1.erase rid, st.2 ++ [c])) (s, tr)
      = (l.foldl (fun a r => a.erase r) s, tr ++ l.map SafeCall.stopRecording) := by
  intro l
  induction l with
  | nil =>
    intro s tr
    simp
  | cons x xs ih =>
    intro s tr
    rw [List.foldl_cons, List.foldl_cons, ih, List.map_cons]
    simp

theorem sets_foldl (env : SafeCall → Except Unit Unit) :
    ∀ (ts : List (String × List (String × JVal))) (tr : List SafeCall),
      ts.foldl
        (fun tr2 t =>
          if t.2.isEmpty then tr2
          else
            let c := SafeCall.setParams t.1 t.2
            let _ := env c
            tr2 ++ [c]) tr
      = tr ++ (ts.filter (fun t => !t.2.isEmpty)).map (fun t => SafeCall.setParams t.1 t.2) := by
  intro ts
  induction ts with
  | nil =>
    intro tr
    simp
  | cons t ts ih =>
    intro tr
    rw [List.foldl_cons]
    by_cases h : t.2.isEmpty = true
    · rw [if_pos h, ih, List.filter_cons]
      simp [h]
    · rw [if_neg h, ih, List.filter_cons]
      simp [h]

/-- C7: `apply_safe_state` stops every active recording id before
applying any setpoint, sequentially in input order; each stop and set
failure is swallowed (`env` is arbitrary and never influences the
result); every recording id is removed from the active set, so the
final active set is always empty; devices with empty target parameters
are skipped; no error propagates (the function is total for every
`env`). -/
theorem spec_C7 : ∀ (env : SafeCall → Except Unit Unit)
    (active : List String) (targets : List (String × List (String × JVal))),
    (apply_safe_state env active targets).1 = [] ∧
    (apply_safe_state env active targets).2 =
      active.map SafeCall.stopRecording ++
      (targets.filter (fun t => !t.2.isEmpty)).map (fun t => SafeCall.setParams t.1 t.2) := by
  intro env active targets
  unfold apply_safe_state
  rw [stops_foldl env active active []]
  dsimp only
  rw [sets_foldl env targets]
  refine ⟨foldl_erase_self active, ?_⟩
  simp

/-- C9 counterexample: an `RpcError` with `details = None` renders as
`"code: message"` with no parenthesized details part, so the rendering
is not `"<code>: <message> (<details>)"` for every `RpcError`. -/
theorem spec_C9_counter :
    RpcError.strRepr ⟨"a", "b", none⟩ = "a: b" ∧
    RpcError.strRepr ⟨"a", "b", none⟩ ≠ "a: b (None)" ∧
    RpcError.strRepr ⟨"a", "b", none⟩ ≠ "a: b ()" := by
  refine ⟨rfl, ?_, ?_⟩ <;> decide

/-- C9 (amended): an `RpcError` renders as
`"<code>: <message> (<details>)"` when its details field is present and
as `"<code>: <message>"` when it is `None`; a protocol-level `RpcError`
makes the CLI print `ERROR: <rendering>` and exit with status 2, while
success exits with status 0. -/
theorem spec_C9 : ∀ (e : RpcError) (v : JVal),
    RpcError.strRepr e =
      (match e.detailsRepr with
       | some d => e.code ++ ": " ++ e.message ++ " (" ++ d ++ ")"
       | none => e.code ++ ": " ++ e.message) ∧
    cliDispatch (.rpcErr e) = some (2, some ("ERROR: " ++ e.strRepr)) ∧
    cliDispatch (.ok v) = some (0, none) ∧
    runCli (fun _ _ => .rpcErr e) .devicesList = some (2, some ("ERROR: " ++ e.strRepr)) ∧
    runCli (fun _ _ => .ok v) .devicesList = some (0, none) := by
  intro e v
  refine ⟨?_, rfl, rfl, rfl, rfl⟩
  rcases e with ⟨c, m, d⟩
  cases d <;> rfl

/-- C3 (code bug): for every frame the reader loop processes, a parse
failure, a non-`rpc_result` type or an unmatched id is discarded
silently with no table change, and a matched frame resolves that entry
with the full envelope and removes it — but a frame that parses to a
non-object JSON value (here the wire text `3`) raises an uncaught
`AttributeError` at `msg.get("type")`, terminating the reader task, so
the well-formed response behind it is never dispatched. -/
theorem spec_C3 :
    readerStep [("a1b2", FutState.unresolved)] (some (.num 3)) = .crashed ∧
    runReader [("a1b2", FutState.unresolved)]
      [some (.num 3),
       some (.obj [("type", .str "rpc_result"), ("id", .str "a1b2"),
                   ("ok", .bool true), ("result", .num 7)])]
      = ([("a1b2", FutState.unresolved)], []) ∧
    readerStep [("a1b2", FutState.unresolved)] none
      = .continues [("a1b2", FutState.unresolved)] none ∧
    readerStep [("a1b2", FutState.unresolved)] (some (.obj [("type", .str "event")]))
      = .continues [("a1b2", FutState.unresolved)] none ∧
    readerStep [("a1b2", FutState.unresolved)]
      (some (.obj [("type", .str "rpc_result"), ("id", .str "zzzz")]))
      = .continues [("a1b2", FutState.unresolved)] none ∧
    readerStep [("a1b2", FutState.unresolved)]
      (some (.obj [("type", .str "rpc_result"), ("id", .str "a1b2"),
                   ("ok", .bool true), ("result", .num 7)]))
      = .continues []
          (some ("a1b2", .obj [("type", .str "rpc_result"), ("id", .str "a1b2"),
                               ("ok", .bool true), ("result", .num 7)])) :=
  ⟨rfl, rfl, rfl, rfl, rfl, rfl⟩

/-- C8 (code bug): `load_recording_jsonl` takes the first
`stonegate_recording` line as header, collects `sample` lines in file
order, takes a `stop` line as footer, and skips blank, unparseable and
unknown-type object lines without error — but a line that parses to a
non-object JSON value (here `3`) raises an uncaught `AttributeError` at
`obj.get("type")` instead of being skipped. -/
theorem spec_C8 :
    load_recording_jsonl
      [.val (.obj [("type", .str "stonegate_recording"), ("version", .num 1)]),
       .val (.obj [("type", .str "sample"), ("n", .num 1)]),
       .val (.obj [("type", .str "sample"), ("n", .num 2)]),
       .val (.obj [("type", .str "stop")]),
       .val (.obj [("type", .str "note")]),
       .malformed, .blank]
      = some ⟨some (.obj [("type", .str "stonegate_recording"), ("version", .num 1)]),
              [.obj [("type", .str "sample"), ("n", .num 1)],
               .obj [("type", .str "sample"), ("n", .num 2)]],
              some (.obj [("type", .str "stop")])⟩ ∧
    load_recording_jsonl
      [.val (.obj [("type", .str "stonegate_recording"), ("version", .num 1)]),
       .val (.obj [("type", .str "stonegate_recording"), ("version", .num 2)])]
      = some ⟨some (.obj [("type", .str "stonegate_recording"), ("version", .num 1)]),
              [], none⟩ ∧
    load_recording_jsonl
      [.val (.obj [("type", .str "stonegate_recording"), ("version", .num 1)]),
       .val (.obj [("type", .str "sample"), ("n", .num 1)]),
       .val (.obj [("type", .str "sample"), ("n", .num 2)]),
       .val (.obj [("type", .str "stop")]),
       .val (.num 3)]
      = none :=
  ⟨rfl, rfl, rfl⟩

theorem keysOf_nil : keysOf [] = [] := rfl

theorem keysOf_cons (k : String) (v : FutState) (rest : Table) :
    keysOf ((k, v) :: rest) = k :: keysOf rest := rfl

theorem lookup_eq_none_iff (tbl : Table) (rid : String) :
    tbl.lookup rid = none ↔ rid ∉ keysOf tbl := by
  induction tbl with
  | nil => simp [keysOf]
  | cons p rest ih =>
    rcases p with ⟨k, v⟩
    rw [keysOf_cons, List.mem_cons]
    by_cases h : rid = k
    · subst h
      simp [List.lookup]
    · have hbeq : (rid == k) = false := beq_false_of_ne h
      simp only [List.lookup, hbeq, cond_false]
      rw [ih]
      constructor
      · intro hn hor
        rcases hor with h1 | h1
        · exact h h1
        · exact hn h1
      · intro hn hm
        exact hn (Or.inr hm)

theorem popKey_eq_none_iff (tbl : Table) (rid : String) :
    popKey tbl rid = none ↔ rid ∉ keysOf tbl := by
  induction tbl with
  | nil => simp [popKey, keysOf]
  | cons p rest ih =>
    rcases p with ⟨k, v⟩
    rw [keysOf_cons, List.mem_cons]
    by_cases h : k = rid
    · subst h
      simp [popKey]
    · rcases hp : popKey rest rid with _ | ft
      · simp only [popKey, if_neg h, hp]
        constructor
        · intro _ hor
          rcases hor with h1 | h1
          · exact h h1.symm
          · exact (ih.mp hp) h1
        · intro _
          trivial
      · simp only [popKey, if_neg h, hp]
        constructor
        · intro hx
          cases hx
        · intro hn
          exfalso
          apply hn
          right
          by_contra hc
          have := ih.mpr hc
          rw [hp] at this
          cases this

theorem popKey_some_inv (tbl : Table) (rid : String) (f : FutState) (t : Table)
    (h : popKey tbl rid = some (f, t)) :
    (rid, f) ∈ tbl ∧ (∀ p ∈ t, p ∈ tbl) ∧ keysOf t = (keysOf tbl).erase rid := by
  induction tbl generalizing f t with
  | nil => simp [popKey] at h
  | cons p rest ih =>
    rcases p with ⟨k, v⟩
    by_cases hk : k = rid
    · subst hk
      have h2 : some (v, rest) = some (f, t) := by simpa [popKey] using h
      have h3 : v = f ∧ rest = t := by simpa using h2
      obtain ⟨rfl, rfl⟩ := h3
      refine ⟨List.mem_cons_self _ _, fun p hp => List.mem_cons_of_mem _ hp, ?_⟩
      rw [keysOf_cons, List.erase_cons_head]
    · rcases hp : popKey rest rid with _ | ⟨f2, t2⟩
      · simp [popKey, if_neg hk, hp] at h
      · have h2 : some (f2, (k, v) :: t2) = some (f, t) := by
          simpa [popKey, if_neg hk, hp] using h
        have h3 : f2 = f ∧ (k, v) :: t2 = t := by simpa using h2
        obtain ⟨rfl, rfl⟩ := h3
        obtain ⟨hmem, hsub, hkeys⟩ := ih f2 t2 hp
        refine ⟨List.mem_cons_of_mem _ hmem, ?_, ?_⟩
        · intro p hp2
          rcases List.mem_cons.mp hp2 with h1 | h1
          · exact h1 ▸ List.mem_cons_self _ _
          · exact List.mem_cons_of_mem _ (hsub p h1)
        · rw [keysOf_cons, keysOf_cons, hkeys, List.erase_cons_tail]
          simp [hk]

theorem popKey_lookup_other (tbl : Table) (rid k : String) (f : FutState) (t : Table)
    (h : popKey tbl rid = some (f, t)) (hk : k ≠ rid) :
    t.lookup k = tbl.lookup k := by
  induction tbl generalizing f t with
  | nil => simp [popKey] at h
  | cons p rest ih =>
    rcases p with ⟨k0, v⟩
    by_cases hk0 : k0 = rid
    · subst hk0
      have h2 : some (v, rest) = some (f, t) := by simpa [popKey] using h
      have h3 : v = f ∧ rest = t := by simpa using h2
      obtain ⟨rfl, rfl⟩ := h3
      have hbeq : (k == k0) = false := beq_false_of_ne (fun he => hk he)
      simp [List.lookup, hbeq]
    · rcases hp : popKey rest rid with _ | ⟨f2, t2⟩
      · simp [popKey, if_neg hk0, hp] at h
      · have h2 : some (f2, (k0, v) :: t2) = some (f, t) := by
          simpa [popKey, if_neg hk0, hp] using h
        have h3 : f2 = f ∧ (k0, v) :: t2 = t := by simpa using h2
        obtain ⟨rfl, rfl⟩ := h3
        by_cases hkk : k = k0
        · subst hkk
          simp [List.lookup]
        · have hbeq : (k == k0) = false := beq_false_of_ne hkk
          simp [List.lookup, hbeq, ih f2 t2 hp]

theorem dropKey_lookup_self (tbl : Table) (rid : String)
    (h : (keysOf tbl).Nodup) : (dropKey tbl rid).lookup rid = none := by
  unfold dropKey
  rcases hp : popKey tbl rid with _ | ⟨f, t⟩
  · exact (lookup_eq_none_iff tbl rid).mpr ((popKey_eq_none_iff tbl rid).mp hp)
  · obtain ⟨_, _, hkeys⟩ := popKey_some_inv tbl rid f t hp
    refine (lookup_eq_none_iff t rid).mpr ?_
    rw [hkeys]
    exact h.not_mem_erase

theorem dropKey_lookup_other (tbl : Table) (rid k : String) (hk : k ≠ rid) :
    (dropKey tbl rid).lookup k = tbl.lookup k := by
  unfold dropKey
  rcases hp : popKey tbl rid with _ | ⟨f, t⟩
  · rfl
  · exact popKey_lookup_other tbl rid k f t hp hk

theorem readerStep_obj (tbl : Table) (kvs : List (String × JVal)) :
    readerStep tbl (some (.obj kvs)) =
      (match getKey kvs "type" with
       | some (.str t) =>
         if t = "rpc_result" then
           match getKey kvs "id" with
           | some ridv =>
             if ridv.truthy then
               match ridv with
               | .str rid =>
                 match popKey tbl rid with
                 | some (fut, tbl2) =>
                   match fut with
                   | .unresolved => .continues tbl2 (some (rid, .obj kvs))
                   | _ => .continues tbl2 none
                 | none => .continues tbl none
               | _ => .continues tbl none
             else .continues tbl none
           | none => .continues tbl none
         else .continues tbl none
       | _ => .continues tbl none) := rfl

theorem readerStep_eval (tbl : Table) (kvs : List (String × JVal)) (rid : String)
    (htype : getKey kvs "type" = some (.str "rpc_result"))
    (hid : getKey kvs "id" = some (.str rid))
    (hrid : rid ≠ "") :
    readerStep tbl (some (.obj kvs)) =
      (match popKey tbl rid with
       | some (fut, tbl2) =>
         match fut with
         | .unresolved => .continues tbl2 (some (rid, .obj kvs))
         | _ => .continues tbl2 none
       | none => .continues tbl none) := by
  have ht : (JVal.str rid).truthy = true := by
    simp [JVal.truthy, hrid]
  rw [readerStep_obj, htype, hid]
  simp only [ht, if_true]

theorem readerStep_falsy_id (tbl : Table) (kvs : List (String × JVal))
    (htype : getKey kvs "type" = some (.str "rpc_result"))
    (hid : getKey kvs "id" = some (.str "")) :
    readerStep tbl (some (.obj kvs)) = .continues tbl none := by
  rw [readerStep_obj, htype, hid]
  simp [JVal.truthy]

theorem readerStep_miss (tbl : Table) (kvs : List (String × JVal)) (rid : String)
    (htype : getKey kvs "type" = some (.str "rpc_result"))
    (hid : getKey kvs "id" = some (.str rid))
    (hpop : popKey tbl rid = none) :
    readerStep tbl (some (.obj kvs)) = .continues tbl none := by
  by_cases hrid : rid = ""
  · subst hrid
    exact readerStep_falsy_id tbl kvs htype hid
  · rw [readerStep_eval tbl kvs rid htype hid hrid, hpop]

theorem readerStep_hit (tbl : Table) (kvs : List (String × JVal)) (rid : String)
    (t2 : Table)
    (htype : getKey kvs "type" = some (.str "rpc_result"))
    (hid : getKey kvs "id" = some (.str rid))
    (hrid : rid ≠ "")
    (hpop : popKey tbl rid = some (FutState.unresolved, t2)) :
    readerStep tbl (some (.obj kvs)) = .continues t2 (some (rid, .obj kvs)) := by
  rw [readerStep_eval tbl kvs rid htype hid hrid, hpop]

/-- C2: a call that times out fails with `Timeout` and its entry is
removed from the pending table (all other entries untouched); an
`rpc_result` frame with that id arriving after the timeout is a no-op
for the reader: it resolves no future, changes no pending entry and
raises no error. -/
theorem spec_C2 : ∀ (tbl : Table) (rid : String),
    (timeoutCall tbl rid).2 = CallOutcome.timedOut ∧
    ((keysOf tbl).Nodup →
      (timeoutCall tbl rid).1.lookup rid = none ∧
      ∀ k, k ≠ rid → (timeoutCall tbl rid).1.lookup k = tbl.lookup k) ∧
    (∀ (tbl2 : Table) (kvs : List (String × JVal)),
      tbl2.lookup rid = none →
      getKey kvs "type" = some (.str "rpc_result") →
      getKey kvs "id" = some (.str rid) →
      readerStep tbl2 (some (.obj kvs)) = .continues tbl2 none) := by
  intro tbl rid
  refine ⟨rfl, ?_, ?_⟩
  · intro hnod
    exact ⟨dropKey_lookup_self tbl rid hnod,
      fun k hk => dropKey_lookup_other tbl rid k hk⟩
  · intro tbl2 kvs hlook htype hid
    exact readerStep_miss tbl2 kvs rid htype hid
      ((popKey_eq_none_iff tbl2 rid).mpr ((lookup_eq_none_iff tbl2 rid).mp hlook))

/-- Witness for C2 at a one-entry table and a concrete late frame. -/
theorem spec_C2_witness :
    (timeoutCall [("x", FutState.unresolved)] "x").2 = CallOutcome.timedOut ∧
    (timeoutCall [("x", FutState.unresolved)] "x").1.lookup "x" = none ∧
    readerStep [] (some (.obj [("type", .str "rpc_result"), ("id", .str "x")]))
      = .continues [] none := by
  refine ⟨(spec_C2 [("x", FutState.unresolved)] "x").1,
    ((spec_C2 [("x", FutState.unresolved)] "x").2.1 (by simp [keysOf])).1,
    (spec_C2 [("x", FutState.unresolved)] "x").2.2 []
      [("type", .str "rpc_result"), ("id", .str "x")] rfl rfl rfl⟩

theorem isResponseFor_eval (kvs : List (String × JVal)) (j i : String)
    (htype : getKey kvs "type" = some (.str "rpc_result"))
    (hid : getKey kvs "id" = some (.str j)) :
    isResponseFor (some (.obj kvs)) i = decide (j = i) := by
  simp [isResponseFor, htype, hid]

theorem firstResponseFor_cons_pos (fr : Frame) (rest : List Frame) (i : String)
    (j : JVal) (h : isResponseFor fr i = true) (hj : fr = some j) :
    firstResponseFor (fr :: rest) i = some j := by
  subst hj
  simp only [firstResponseFor, List.find?, h]

theorem firstResponseFor_cons_neg (fr : Frame) (rest : List Frame) (i : String)
    (h : isResponseFor fr i = false) :
    firstResponseFor (fr :: rest) i = firstResponseFor rest i := by
  simp only [firstResponseFor, List.find?, h]

theorem runReader_cons_none (tbl tbl2 : Table) (fr : Frame) (rest : List Frame)
    (h : readerStep tbl fr = .continues tbl2 none) :
    runReader tbl (fr :: rest) = runReader tbl2 rest := by
  simp only [runReader, h]

theorem runReader_cons_some (tbl tbl2 : Table) (fr : Frame) (rest : List Frame)
    (r : String × JVal)
    (h : readerStep tbl fr = .continues tbl2 (some r)) :
    runReader tbl (fr :: rest)
      = ((runReader tbl2 rest).1, r :: (runReader tbl2 rest).2) := by
  simp only [runReader, h]

/-- The per-frame resolution facts of the reader loop: in a table with
pairwise-distinct ids and unresolved futures, fed only well-formed
`rpc_result` frames, every resolution `(i, msg)` satisfies: `msg`
carries id `i`, `msg` is the first frame carrying id `i`, and `i` was
pending at the start. -/
theorem runReader_resolves :
    ∀ (frames : List Frame) (tbl : Table),
      (keysOf tbl).Nodup →
      (∀ p ∈ tbl, p.2 = FutState.unresolved) →
      (∀ fr ∈ frames, ∃ kvs j, fr = some (JVal.obj kvs) ∧
        getKey kvs "type" = some (.str "rpc_result") ∧
        getKey kvs "id" = some (.str j) ∧ j ≠ "") →
      ∀ i msg, (i, msg) ∈ (runReader tbl frames).2 →
        isResponseFor (some msg) i = true ∧
        firstResponseFor frames i = some msg ∧
        i ∈ keysOf tbl := by
  intro frames
  induction frames with
  | nil =>
    intro tbl _ _ _ i msg hmem
    simp [runReader] at hmem
  | cons fr rest ih =>
    intro tbl hnod hunres hwf i msg hmem
    obtain ⟨kvs, j, hfr, htype, hid, hj⟩ := hwf fr (List.mem_cons_self _ _)
    subst hfr
    rcases hpop : popKey tbl j with _ | ⟨fut, t2⟩
    · have hstep := readerStep_miss tbl kvs j htype hid hpop
      rw [runReader_cons_none tbl tbl _ rest hstep] at hmem
      obtain ⟨hresp, hfirst, hkey⟩ :=
        ih tbl hnod hunres (fun fr2 h2 => hwf fr2 (List.mem_cons_of_mem _ h2)) i msg hmem
      have hji : j ≠ i := by
        intro he
        subst he
        exact ((popKey_eq_none_iff tbl j).mp hpop) hkey
      have hneg : isResponseFor (some (JVal.obj kvs)) i = false := by
        rw [isResponseFor_eval kvs j i htype hid]
        simp [hji]
      exact ⟨hresp, by rw [firstResponseFor_cons_neg _ rest i hneg]; exact hfirst, hkey⟩
    · have hfut : fut = FutState.unresolved := by
        exact hunres (j, fut) (popKey_some_inv tbl j fut t2 hpop).1
      subst hfut
      obtain ⟨hmemk, hsub, hkeys⟩ := popKey_some_inv tbl j FutState.unresolved t2 hpop
      have hstep := readerStep_hit tbl kvs j t2 htype hid hj hpop
      rw [runReader_cons_some tbl t2 _ rest _ hstep] at hmem
      rcases List.mem_cons.mp hmem with hhead | htail
      · have hi : i = j := congrArg Prod.fst hhead
        have hmsg : msg = JVal.obj kvs := congrArg Prod.snd hhead
        subst hi
        subst hmsg
        refine ⟨?_, ?_, ?_⟩
        · rw [isResponseFor_eval kvs i i htype hid]
          simp
        · refine firstResponseFor_cons_pos _ rest i (JVal.obj kvs) ?_ rfl
          rw [isResponseFor_eval kvs i i htype hid]
          simp
        · exact List.mem_map_of_mem Prod.fst hmemk
      · have hnod2 : (keysOf t2).Nodup := by
          rw [hkeys]
          exact hnod.erase _
        have hunres2 : ∀ p ∈ t2, p.2 = FutState.unresolved :=
          fun p hp => hunres p (hsub p hp)
        obtain ⟨hresp, hfirst, hkey⟩ :=
          ih t2 hnod2 hunres2 (fun fr2 h2 => hwf fr2 (List.mem_cons_of_mem _ h2)) i msg htail
        have hji : j ≠ i := by
          intro he
          subst he
          rw [hkeys] at hkey
          exact hnod.not_mem_erase hkey
        have hneg : isResponseFor (some (JVal.obj kvs)) i = false := by
          rw [isResponseFor_eval kvs j i htype hid]
          simp [hji]
        refine ⟨hresp, by rw [firstResponseFor_cons_neg _ rest i hneg]; exact hfirst, ?_⟩
        rw [hkeys] at hkey
        exact List.erase_subset _ _ hkey

/-- The correlation decision of one reader step is a function of the
frame's `type` and `id` fields and the table alone. -/
theorem readerStep_action (tbl : Table) (kvs : List (String × JVal)) :
    (stepTable (readerStep tbl (some (.obj kvs))),
     stepResolvedId (readerStep tbl (some (.obj kvs))))
      = readerAction (getKey kvs "type") (getKey kvs "id") tbl := by
  rw [readerStep_obj]
  unfold readerAction
  rcases htv : getKey kvs "type" with _ | tv
  · rfl
  · cases tv with
    | str t =>
      by_cases ht : t = "rpc_result"
      · subst ht
        rcases hiv : getKey kvs "id" with _ | iv
        · rfl
        · by_cases htr : iv.truthy = true
          · cases iv with
            | str rid =>
              rcases hpop : popKey tbl rid with _ | ⟨fut, t2⟩
              · simp only [htr, if_true, hpop]
                rfl
              · cases fut <;>
                  (simp only [htr, if_true, hpop]
                   rfl)
            | null =>
              simp only [htr, if_true]
              rfl
            | bool b =>
              simp only [htr, if_true]
              rfl
            | num q =>
              simp only [htr, if_true]
              rfl
            | arr xs =>
              simp only [htr, if_true]
              rfl
            | obj o =>
              simp only [htr, if_true]
              rfl
          · simp only [htr, if_false, Bool.false_eq_true]
            rfl
      · simp only [if_neg ht]
        rfl
    | null => rfl
    | bool b => rfl
    | num q => rfl
    | arr xs => rfl
    | obj o => rfl

/-- C1: with pairwise-distinct in-flight ids, under any interleaving of
inbound `rpc_result` frames, a call that resolves does so with exactly
the first response frame carrying its own id — never one with a
different id — and, when that envelope is `ok`, the call returns that
envelope's `result` field; the reader's correlation decision is a
function of the frame's `type` and `id` fields and the table alone,
independent of method or payload shape. -/
theorem spec_C1 :
    (∀ (frames : List Frame) (tbl : Table),
      (keysOf tbl).Nodup →
      (∀ p ∈ tbl, p.2 = FutState.unresolved) →
      (∀ fr ∈ frames, ∃ kvs j, fr = some (JVal.obj kvs) ∧
        getKey kvs "type" = some (.str "rpc_result") ∧
        getKey kvs "id" = some (.str j) ∧ j ≠ "") →
      ∀ i msg, (i, msg) ∈ (runReader tbl frames).2 →
        isResponseFor (some msg) i = true ∧
        firstResponseFor frames i = some msg ∧
        i ∈ keysOf tbl ∧
        (∀ kvs2 okv, msg = JVal.obj kvs2 → getKey kvs2 "ok" = some okv →
          okv.truthy = true →
          finishCall msg = CallOutcome.success ((getKey kvs2 "result").getD JVal.null)))
    ∧ (∀ (tbl : Table) (kvs : List (String × JVal)),
      (stepTable (readerStep tbl (some (.obj kvs))),
       stepResolvedId (readerStep tbl (some (.obj kvs))))
        = readerAction (getKey kvs "type") (getKey kvs "id") tbl) := by
  constructor
  · intro frames tbl hnod hunres hwf i msg hmem
    obtain ⟨h1, h2, h3⟩ := runReader_resolves frames tbl hnod hunres hwf i msg hmem
    refine ⟨h1, h2, h3, ?_⟩
    intro kvs2 okv hm hok htr
    subst hm
    have hfc : finishCall (JVal.obj kvs2) =
        (match getKey kvs2 "ok" with
         | some okv =>
           if okv.truthy then
             CallOutcome.success ((getKey kvs2 "result").getD JVal.null)
           else finishCall.finishCallError kvs2
         | none => finishCall.finishCallError kvs2) := rfl
    rw [hfc, hok]
    simp [htr]
  · exact readerStep_action

/-- Witness for C1: two pending requests, responses delivered out of
request order; `u2` resolves with the envelope carrying id `u2` (the
first such frame), and the call returns its `result` field `2`. -/
theorem spec_C1_witness :
    isResponseFor (some exEnvB) "u2" = true ∧
    firstResponseFor exFrames "u2" = some exEnvB ∧
    "u2" ∈ keysOf exTable ∧
    finishCall exEnvB = CallOutcome.success (JVal.num 2) := by
  have hmem : ("u2", exEnvB) ∈ (runReader exTable exFrames).2 := by
    have he : (runReader exTable exFrames).2 = [("u2", exEnvB), ("u1", exEnvA)] := rfl
    rw [he]
    exact List.mem_cons_self _ _
  have h := spec_C1.1 exFrames exTable
    (by simp [keysOf, exTable])
    (by
      intro p hp
      simp only [exTable, List.mem_cons, List.mem_singleton] at hp
      rcases hp with rfl | hp2
      · rfl
      · rcases hp2 with rfl | hp3
        · rfl
        · cases hp3)
    (by
      intro fr hfr
      simp only [exFrames, List.mem_cons, List.mem_singleton] at hfr
      rcases hfr with rfl | hfr2
      · exact ⟨_, "u2", rfl, rfl, rfl, by decide⟩
      · rcases hfr2 with rfl | hfr3
        · exact ⟨_, "u1", rfl, rfl, rfl, by decide⟩
        · cases hfr3)
    "u2" exEnvB hmem
  obtain ⟨h1, h2, h3, h4⟩ := h
  refine ⟨h1, h2, h3, ?_⟩
  have h5 := h4 [("type", .str "rpc_result"), ("id", .str "u2"),
    ("ok", .bool true), ("result", .num 2)] (.bool true) rfl rfl rfl
  exact h5

theorem foldl_max_init_le (xs : List ℚ) : ∀ a : ℚ, a ≤ xs.foldl max a := by
  induction xs with
  | nil => intro a; exact le_refl a
  | cons x xs ih => intro a; exact le_trans (le_max_left a x) (ih (max a x))

theorem foldl_max_mem_le (xs : List ℚ) : ∀ (a x : ℚ), x ∈ xs → x ≤ xs.foldl max a := by
  induction xs with
  | nil =>
    intro a x hx
    cases hx
  | cons y ys ih =>
    intro a x hx
    rcases List.mem_cons.mp hx with rfl | hx2
    · exact le_trans (le_max_right a x) (foldl_max_init_le ys (max a x))
    · exact ih (max a y) x hx2

theorem foldl_max_cases (xs : List ℚ) : ∀ a : ℚ, xs.foldl max a = a ∨ xs.foldl max a ∈ xs := by
  induction xs with
  | nil => intro a; exact Or.inl rfl
  | cons x xs ih =>
    intro a
    rw [List.foldl_cons]
    rcases ih (max a x) with h | h
    · rw [h]
      rcases le_total a x with hax | hax
      · right
        rw [max_eq_right hax]
        exact List.mem_cons_self _ _
      · left
        exact max_eq_left hax
    · right
      exact List.mem_cons_of_mem _ h

theorem foldl_min_init_le (xs : List ℚ) : ∀ a : ℚ, xs.foldl min a ≤ a := by
  induction xs with
  | nil => intro a; exact le_refl a
  | cons x xs ih => intro a; exact le_trans (ih (min a x)) (min_le_left a x)

theorem foldl_min_mem_le (xs : List ℚ) : ∀ (a x : ℚ), x ∈ xs → xs.foldl min a ≤ x := by
  induction xs with
  | nil =>
    intro a x hx
    cases hx
  | cons y ys ih =>
    intro a x hx
    rcases List.mem_cons.mp hx with rfl | hx2
    · exact le_trans (foldl_min_init_le ys (min a x)) (min_le_right a x)
    · exact ih (min a y) x hx2

theorem foldl_min_cases (xs : List ℚ) : ∀ a : ℚ, xs.foldl min a = a ∨ xs.foldl min a ∈ xs := by
  induction xs with
  | nil => intro a; exact Or.inl rfl
  | cons x xs ih =>
    intro a
    rw [List.foldl_cons]
    rcases ih (min a x) with h | h
    · rw [h]
      rcases le_total a x with hax | hax
      · left
        exact min_eq_left hax
      · right
        rw [min_eq_right hax]
        exact List.mem_cons_self _ _
    · right
      exact List.mem_cons_of_mem _ h

theorem listMax_cons (x : ℚ) (xs : List ℚ) : listMax (x :: xs) = xs.foldl max x := by
  unfold listMax
  rw [List.headD_cons, List.foldl_cons, max_self]

theorem listMin_cons (x : ℚ) (xs : List ℚ) : listMin (x :: xs) = xs.foldl min x := by
  unfold listMin
  rw [List.headD_cons, List.foldl_cons, min_self]

theorem listMax_mem (l : List ℚ) (h : l ≠ []) : listMax l ∈ l := by
  cases l with
  | nil => exact absurd rfl h
  | cons x xs =>
    rw [listMax_cons]
    rcases foldl_max_cases xs x with h2 | h2
    · rw [h2]
      exact List.mem_cons_self _ _
    · exact List.mem_cons_of_mem _ h2

theorem listMin_mem (l : List ℚ) (h : l ≠ []) : listMin l ∈ l := by
  cases l with
  | nil => exact absurd rfl h
  | cons x xs =>
    rw [listMin_cons]
    rcases foldl_min_cases xs x with h2 | h2
    · rw [h2]
      exact List.mem_cons_self _ _
    · exact List.mem_cons_of_mem _ h2

theorem le_listMax (l : List ℚ) (x : ℚ) (hx : x ∈ l) : x ≤ listMax l := by
  cases l with
  | nil => cases hx
  | cons y ys =>
    rw [listMax_cons]
    rcases List.mem_cons.mp hx with rfl | h2
    · exact foldl_max_init_le ys x
    · exact foldl_max_mem_le ys y x h2

theorem listMin_le (l : List ℚ) (x : ℚ) (hx : x ∈ l) : listMin l ≤ x := by
  cases l with
  | nil => cases hx
  | cons y ys =>
    rw [listMin_cons]
    rcases List.mem_cons.mp hx with rfl | h2
    · exact foldl_min_init_le ys x
    · exact foldl_min_mem_le ys y x h2

theorem stable_iff_all_eq (l : List ℚ) (h : l ≠ []) (tol : ℚ) (h0 : tol = 0) :
    |listMax l - listMin l| ≤ tol ↔ ∀ a ∈ l, ∀ b ∈ l, a = b := by
  subst h0
  have hmaxmem := listMax_mem l h
  have hminmem := listMin_mem l h
  have hminmax : listMin l ≤ listMax l := listMin_le l (listMax l) hmaxmem
  rw [abs_of_nonneg (by linarith)]
  constructor
  · intro hle a ha b hb
    have h1 := le_listMax l a ha
    have h2 := listMin_le l a ha
    have h3 := le_listMax l b hb
    have h4 := listMin_le l b hb
    linarith
  · intro hall
    have := hall (listMax l) hmaxmem (listMin l) hminmem
    linarith

theorem evictOld_within (win now : ℚ) :
    ∀ (ts ss : List ℚ), ts.Sorted (· ≤ ·) → ts.length = ss.length →
      ∀ t ∈ (evictOld win now ts ss).1, now - t ≤ win := by
  intro ts
  induction ts with
  | nil =>
    intro ss _ _ t ht
    cases ss with
    | nil => cases ht
    | cons s sr => cases ht
  | cons t0 tr ih =>
    intro ss hs hlen t ht
    cases ss with
    | nil => cases hlen
    | cons s sr =>
      obtain ⟨hhead, htail⟩ := List.sorted_cons.mp hs
      by_cases hc : now - t0 > win
      · rw [show evictOld win now (t0 :: tr) (s :: sr) = evictOld win now tr sr from by
          simp [evictOld, hc]] at ht
        exact ih sr htail (by simpa using hlen) t ht
      · rw [show evictOld win now (t0 :: tr) (s :: sr) = (t0 :: tr, s :: sr) from by
          simp [evictOld, hc]] at ht
        rcases List.mem_cons.mp ht with rfl | h2
        · linarith [not_lt.mp hc]
        · have := hhead t h2
          have := not_lt.mp hc
          linarith

theorem stabStep_samples (tol win : ℚ) (consec : ℤ) (st : StabState)
    (v : Option ℚ) (now : ℚ) :
    (stabStep tol win consec st v now).1.samples = (stabEvicted win st v now).2 := by
  unfold stabStep
  split <;> rfl

theorem stabStep_short (tol win : ℚ) (consec : ℤ) (st : StabState)
    (v : Option ℚ) (now : ℚ)
    (h : (stabEvicted win st v now).2.length < 2) :
    (stabStep tol win consec st v now).1.ok = st.ok ∧
    (stabStep tol win consec st v now).2 = false := by
  unfold stabStep
  rw [if_neg (not_le.mpr h)]
  exact ⟨rfl, rfl⟩

theorem stabStep_judged (tol win : ℚ) (consec : ℤ) (st : StabState)
    (v : Option ℚ) (now : ℚ)
    (h : 2 ≤ (stabEvicted win st v now).2.length) :
    ((|listMax (stabEvicted win st v now).2 - listMin (stabEvicted win st v now).2| ≤ tol →
       (stabStep tol win consec st v now).1.ok = st.ok + 1) ∧
     (¬(|listMax (stabEvicted win st v now).2 - listMin (stabEvicted win st v now).2| ≤ tol) →
       (stabStep tol win consec st v now).1.ok = 0)) := by
  unfold stabStep
  rw [if_pos h]
  constructor
  · intro hs
    show stabOk tol win st v now = st.ok + 1
    unfold stabOk
    rw [if_pos hs]
  · intro hs
    show stabOk tol win st v now = 0
    unfold stabOk
    rw [if_neg hs]

theorem stabStep_flag (tol win : ℚ) (consec : ℤ) (st : StabState)
    (v : Option ℚ) (now : ℚ) :
    ((stabStep tol win consec st v now).2 = true ↔
      2 ≤ (stabEvicted win st v now).2.length ∧
      consec ≤ ((stabStep tol win consec st v now).1.ok : ℤ)) := by
  unfold stabStep
  by_cases h : (stabEvicted win st v now).2.length ≥ 2
  · rw [if_pos h]
    simp only [decide_eq_true_eq, ge_iff_le]
    constructor
    · intro hle
      exact ⟨h, hle⟩
    · intro hand
      exact hand.2
  · rw [if_neg h]
    simp only [Bool.false_eq_true, false_iff, not_and]
    intro h2
    exact absurd h2 h

/-- C5 counterexample: a poll that yields no usable value still
re-judges the remaining window, so it can increment the counter — and
even complete the wait — contradicting the claim that such a poll
neither increments nor resets the counter. -/
theorem spec_C5_counter :
    (stabStep 0 10 2 ⟨[1, 1], [0, 1/10], 1⟩ none (2/10)).1.ok = 2 ∧
    (stabStep 0 10 2 ⟨[1, 1], [0, 1/10], 1⟩ none (2/10)).1.ok ≠
      (⟨[1, 1], [0, 1/10], 1⟩ : StabState).ok ∧
    runStable 0 10 2 100 0 ⟨[], [], 0⟩
      [(0, some 1, 0), (1/10, some 1, 1/10), (2/10, none, 2/10)] = some .success := by
  refine ⟨?_, ?_, ?_⟩ <;>
    norm_num [runStable, stabStep, stabEvicted, evictOld, stabOk, listMax, listMin,
      List.foldl]

/-- C5 (amended): `wait_for_stable` evicts entries older than
`window_s` before judging; judges only with at least 2 samples present;
a stable window (`|max - min| ≤ tolerance`) increments the counter and
an unstable one resets it to 0, with `tolerance = 0` demanding exact
equality across the window; it returns the instant the counter reaches
`consecutive`, and raises `Timeout` when the elapsed time reaches
`timeout_s` first; a poll yielding no usable value is not appended —
but the eviction and the judgment still run on the remaining window, so
such a poll can still increment or reset the counter. -/
theorem spec_C5 :
    (∀ (tol win : ℚ) (consec : ℤ) (st : StabState) (v : Option ℚ) (now : ℚ),
      ((stabStep tol win consec st none now).1.samples
          = (evictOld win now st.ts st.samples).2) ∧
      (∀ x, (stabStep tol win consec st (some x) now).1.samples
          = (evictOld win now (st.ts ++ [now]) (st.samples ++ [x])).2) ∧
      ((stabEvicted win st v now).2.length < 2 →
        (stabStep tol win consec st v now).1.ok = st.ok ∧
        (stabStep tol win consec st v now).2 = false) ∧
      (2 ≤ (stabEvicted win st v now).2.length →
        ((|listMax (stabEvicted win st v now).2 - listMin (stabEvicted win st v now).2| ≤ tol →
           (stabStep tol win consec st v now).1.ok = st.ok + 1) ∧
         (¬(|listMax (stabEvicted win st v now).2 - listMin (stabEvicted win st v now).2| ≤ tol) →
           (stabStep tol win consec st v now).1.ok = 0))) ∧
      ((stabStep tol win consec st v now).2 = true ↔
        2 ≤ (stabEvicted win st v now).2.length ∧
        consec ≤ ((stabStep tol win consec st v now).1.ok : ℤ)) ∧
      (tol = 0 → 2 ≤ (stabEvicted win st v now).2.length →
        ((stabStep tol win consec st v now).1.ok = st.ok + 1 ↔
          ∀ a ∈ (stabStep tol win consec st v now).1.samples,
            ∀ b ∈ (stabStep tol win consec st v now).1.samples, a = b)))
    ∧ (∀ (win now : ℚ) (ts ss : List ℚ), ts.Sorted (· ≤ ·) → ts.length = ss.length →
        ∀ t ∈ (evictOld win now ts ss).1, now - t ≤ win)
    ∧ (∀ (tol win : ℚ) (consec : ℤ) (timeout start : ℚ) (st : StabState)
        (tcheck : ℚ) (v : Option ℚ) (now : ℚ) (rest : List (ℚ × Option ℚ × ℚ)),
        (tcheck - start < timeout → (stabStep tol win consec st v now).2 = true →
          runStable tol win consec timeout start st ((tcheck, v, now) :: rest)
            = some .success) ∧
        (¬(tcheck - start < timeout) →
          runStable tol win consec timeout start st ((tcheck, v, now) :: rest)
            = some .timedOut)) := by
  refine ⟨?_, evictOld_within, ?_⟩
  · intro tol win consec st v now
    refine ⟨stabStep_samples tol win consec st none now,
      fun x => stabStep_samples tol win consec st (some x) now,
      stabStep_short tol win consec st v now,
      stabStep_judged tol win consec st v now,
      stabStep_flag tol win consec st v now, ?_⟩
    intro h0 h2
    have hne : (stabEvicted win st v now).2 ≠ [] := by
      intro he
      rw [he] at h2
      cases h2
    rw [stabStep_samples tol win consec st v now]
    constructor
    · intro hok
      refine (stable_iff_all_eq (stabEvicted win st v now).2 hne tol h0).mp ?_
      by_contra hc
      have := ((stabStep_judged tol win consec st v now h2).2 hc)
      rw [this] at hok
      exact Nat.succ_ne_zero st.ok hok.symm
    · intro hall
      exact (stabStep_judged tol win consec st v now h2).1
        ((stable_iff_all_eq (stabEvicted win st v now).2 hne tol h0).mpr hall)
  · intro tol win consec timeout start st tcheck v now rest
    constructor
    · intro h1 h2
      simp only [runStable, if_pos h1, h2]
      rfl
    · intro h1
      simp only [runStable, if_neg h1]

/-- Witness for C5 at concrete parameters: a two-sample stable window
increments the counter to 2, a short window leaves it untouched, and an
expired clock check raises the timeout. -/
theorem spec_C5_witness :
    (stabStep 0 10 2 (⟨[1], [0], 1⟩ : StabState) (some 1) (1/10)).1.ok = 2 ∧
    (stabStep 0 10 2 (⟨[], [], 3⟩ : StabState) none (1/10)).1.ok = 3 ∧
    runStable 0 10 2 3 0 (⟨[], [], 0⟩ : StabState) [(5, some 1, 5)] = some .timedOut := by
  refine ⟨?_, ?_, ?_⟩
  · exact ((spec_C5.1 0 10 2 ⟨[1], [0], 1⟩ (some 1) (1/10)).2.2.2.1
      (by norm_num [stabEvicted, evictOld])).1
      (by norm_num [stabEvicted, evictOld, listMax, listMin, List.foldl])
  · exact ((spec_C5.1 0 10 2 ⟨[], [], 3⟩ none (1/10)).2.2.1
      (by norm_num [stabEvicted, evictOld])).1
  · exact ((spec_C5.2.2 0 10 2 3 0 ⟨[], [], 0⟩ 5 (some 1) 5 []).2 (by norm_num))

/-- C6: `estimate_leak_rate_per_s` returns no estimate exactly when
there are fewer than 3 raw samples, or `dp0 = P(t0) - P_atm` is zero, or
fewer than 3 usable points survive the sign/zero filter, or the centered
denominator `Σ(x-x̄)²` is zero, or `k = -slope` is negative (in exact
rational arithmetic `k` is always finite, so the non-finiteness
rejection of the floating-point original is vacuous); otherwise it
returns exactly `k = -slope` with
`slope = Σ(x-x̄)(y-ȳ) / Σ(x-x̄)²` over `y = log |dp|`, `x = t - t0`. -/
theorem spec_C6 :
    (∀ (log : ℚ → ℚ) (p_atm : ℚ), estimate_leak_rate_per_s log [] p_atm = none) ∧
    (∀ (log : ℚ → ℚ) (samples : List (ℚ × ℚ)) (p_atm t0 p0 : ℚ)
      (rest : List (ℚ × ℚ)), samples = (t0, p0) :: rest →
      ((estimate_leak_rate_per_s log samples p_atm = none ↔
        samples.length < 3 ∨ p0 - p_atm = 0 ∨
        (leakFilter p_atm (p0 - p_atm) samples).length < 3 ∨
        centeredDen ((leakFilter p_atm (p0 - p_atm) samples).map (fun s => s.1 - t0)) = 0 ∨
        -(centeredNum ((leakFilter p_atm (p0 - p_atm) samples).map (fun s => s.1 - t0))
            ((leakFilter p_atm (p0 - p_atm) samples).map (fun s => log |s.2 - p_atm|)) /
          centeredDen ((leakFilter p_atm (p0 - p_atm) samples).map (fun s => s.1 - t0))) < 0) ∧
      (∀ r, estimate_leak_rate_per_s log samples p_atm = some r →
        r = -(centeredNum ((leakFilter p_atm (p0 - p_atm) samples).map (fun s => s.1 - t0))
              ((leakFilter p_atm (p0 - p_atm) samples).map (fun s => log |s.2 - p_atm|)) /
            centeredDen ((leakFilter p_atm (p0 - p_atm) samples).map (fun s => s.1 - t0)))))) := by
  constructor
  · intro log p_atm
    rfl
  · intro log samples p_atm t0 p0 rest hs
    subst hs
    simp only [estimate_leak_rate_per_s, List.length_map]
    constructor
    · split_ifs with h1 h2 h3 h4 h5 <;> simp_all
    · intro r
      split_ifs with h1 h2 h3 h4 h5 <;> intro hr <;> simp_all

/-- Witness for C6: on the exact decay series `P(t) = 4 - t` over
`t = 0, 1, 2` with `P_atm = 0` and the identity standing for the log,
the estimator returns `k = 1`, which equals the negated centered
least-squares slope. -/
theorem spec_C6_witness :
    estimate_leak_rate_per_s (fun q => q) [(0, 4), (1, 3), (2, 2)] 0 = some 1 ∧
    (1 : ℚ) =
      -(centeredNum
          ((leakFilter 0 (4 - 0) [(0, 4), (1, 3), (2, 2)]).map (fun s => s.1 - 0))
          ((leakFilter 0 (4 - 0) [(0, 4), (1, 3), (2, 2)]).map
            (fun s => (fun q : ℚ => q) |s.2 - 0|)) /
        centeredDen ((leakFilter 0 (4 - 0) [(0, 4), (1, 3), (2, 2)]).map (fun s => s.1 - 0))) := by
  have heval : estimate_leak_rate_per_s (fun q : ℚ => q) [(0, 4), (1, 3), (2, 2)] 0 = some 1 := by
    norm_num [estimate_leak_rate_per_s, leakFilter, List.filter, centeredNum, centeredDen,
      List.zip, List.zipWith, List.sum_cons, List.sum_nil]
  exact ⟨heval,
    (spec_C6.2 (fun q : ℚ => q) [(0, 4), (1, 3), (2, 2)] 0 0 4 [(1, 3), (2, 2)] rfl).2 1 heval⟩

end StoneGate
